import Mathlib

/-
Verification of the RoyalRoad site extractor (src/sites/royalroad.py).

The HTML documents manipulated by the extractor are modelled as a nested
inductive tree: BeautifulSoup tags become `Node.elem tag classes attrs
children` (the multi-valued `class` attribute is kept separate from the
remaining attributes, mirroring BeautifulSoup's list-valued class handling;
an absent `class` attribute is modelled as the empty class list) and
navigable strings become `Node.text`.  In-place tree mutation is modelled by
value passing: a Python call that mutates its argument in place and returns
it becomes a Lean function from trees to trees.  Python exceptions
(AttributeError / KeyError / TypeError on `None`, `int()` failures) are
modelled with `Except Unit`.  Character classes of Python regular
expressions are modelled over their ASCII meaning.
-/

/-- A parsed HTML node: a navigable string, or a tag with its name, its
list-valued `class` attribute, its remaining attributes and its children. -/
inductive Node where
  | text : String → Node
  | elem : String → List String → List (String × String) → List Node → Node

/-- BeautifulSoup `class_=c` matching: the tag carries class `c`. -/
def hasClass (c : String) : Node → Bool
  | .text _ => false
  | .elem _ cls _ _ => cls.contains c

/-- Tag-name matching (`soup.find('div', ...)` style). -/
def isTag (t : String) (n : Node) : Bool :=
  match n with
  | .text _ => false
  | .elem tg _ _ _ => tg == t

/-- BeautifulSoup `tag.get(k)`: the attribute value, or `None`. -/
def getAttr (n : Node) (k : String) : Option String :=
  match n with
  | .text _ => none
  | .elem _ _ attrs _ => (attrs.find? (fun p => p.1 == k)).map (·.2)

mutual
/-- BeautifulSoup `tag.find(...)`: first matching element among the strict
descendants of a node, in document (pre-)order. -/
def findIn (p : Node → Bool) : Node → Option Node
  | .text _ => none
  | .elem _ _ _ ch => findInList p ch
def findInList (p : Node → Bool) : List Node → Option Node
  | [] => none
  | n :: ns =>
    if p n then some n else
      match findIn p n with
      | some r => some r
      | none => findInList p ns
end

mutual
/-- BeautifulSoup `tag.find_all(...)`: all matching strict descendants, in
document (pre-)order. -/
def findAllIn (p : Node → Bool) : Node → List Node
  | .text _ => []
  | .elem _ _ _ ch => findAllInList p ch
def findAllInList (p : Node → Bool) : List Node → List Node
  | [] => []
  | n :: ns => (if p n then [n] else []) ++ findAllIn p n ++ findAllInList p ns
end

/-- Some strict descendant of the node matches. -/
def anyIn (p : Node → Bool) (n : Node) : Bool :=
  (findIn p n).isSome

mutual
/-- Parent of the first matching strict descendant (`found.parent`): the
search starts from `cur`, which plays the role of the soup object itself
for top-level children. -/
def parentIn (p : Node → Bool) (cur : Node) : Option Node :=
  match cur with
  | .text _ => none
  | .elem _ _ _ ch => parentInList p cur ch
def parentInList (p : Node → Bool) (cur : Node) : List Node → Option Node
  | [] => none
  | n :: ns =>
    if p n then some cur else
      match parentIn p n with
      | some r => some r
      | none => parentInList p cur ns
end

/-- Python `\s` on ASCII text. -/
def pySpace (c : Char) : Bool :=
  c == ' ' || c == '\t' || c == '\n' || c == '\r' || c == '\x0b' || c == '\x0c'

/-- Python `\w` on ASCII text. -/
def pyWord (c : Char) : Bool :=
  c.isAlphanum || c == '_'

/-- Python `str.strip()` (ASCII whitespace). -/
def pyStrip (s : String) : String :=
  ⟨((s.data.dropWhile pySpace).reverse.dropWhile pySpace).reverse⟩

mutual
/-- All descendant strings of a node, in document order. -/
def texts : Node → List String
  | .text s => [s]
  | .elem _ _ _ ch => textsList ch
def textsList : List Node → List String
  | [] => []
  | n :: ns => texts n ++ textsList ns
end

/-- Concatenation of a list of strings (no separator). -/
def joinStr : List String → String
  | [] => ""
  | s :: rest => s ++ joinStr rest

/-- BeautifulSoup `tag.get_text()`. -/
def getText (n : Node) : String :=
  joinStr (texts n)

/-- BeautifulSoup `tag.get_text(strip=True)`: each string stripped before
concatenation. -/
def getTextStrip (n : Node) : String :=
  joinStr ((texts n).map pyStrip)

mutual
/-- BeautifulSoup `tag.string`: the single navigable string of a tag whose
unique child chain ends in a string; `None` otherwise. -/
def stringOf : Node → Option String
  | .text s => some s
  | .elem _ _ _ ch => stringOfList ch
def stringOfList : List Node → Option String
  | [c] => stringOf c
  | _ => none
end

/-- Attribute rendering for `str(tag)`. -/
def serAttrs : List (String × String) → String
  | [] => ""
  | (k, v) :: rest => " " ++ k ++ "=\"" ++ v ++ "\"" ++ serAttrs rest

/-- Space-separated join (class list rendering). -/
def joinSp : List String → String
  | [] => ""
  | [c] => c
  | c :: rest => c ++ " " ++ joinSp rest

/-- Rendering of the `class` attribute for `str(tag)`. -/
def serCls : List String → String
  | [] => ""
  | cls => " class=\"" ++ joinSp cls ++ "\""

mutual
/-- Python `str(tag)`: HTML serialization of the model tree.  The `class`
attribute is rendered first; entity escaping and void-element forms are not
modelled (no claim depends on them). -/
def serialize : Node → String
  | .text s => s
  | .elem t cls attrs ch =>
    "<" ++ t ++ serCls cls ++ serAttrs attrs ++ ">" ++ serializeList ch ++ "</" ++ t ++ ">"
def serializeList : List Node → String
  | [] => ""
  | n :: ns => serialize n ++ serializeList ns
end

/-- Match a literal prefix of a character list, returning the remainder. -/
def stripP : List Char → List Char → Option (List Char)
  | [], cs => some cs
  | _ :: _, [] => none
  | p :: ps, c :: cs => if c = p then stripP ps cs else none

/-- Greedy `https?://` prefix of the `matches`/`extract` regexes: the scheme
characters consumed and the remainder. -/
def schemeSplit (cs : List Char) : Option (List Char × List Char) :=
  match stripP "https://".data cs with
  | some rest => some ("https://".data, rest)
  | none =>
    match stripP "http://".data cs with
    | some rest => some ("http://".data, rest)
    | none => none

/-- Greedy optional `(?:www\.)?`: the characters consumed and the remainder. -/
def wwwSplit (cs : List Char) : List Char × List Char :=
  match stripP "www.".data cs with
  | some rest => ("www.".data, rest)
  | none => ([], cs)

/-- The literal `<domain>\.com/fiction/` part of the URL regexes. -/
def fictionPath (domain : String) : List Char :=
  domain.data ++ ".com/fiction/".data

/-- Anchored match of `^https?://(?:www\.)?<domain>\.com/fiction/(\d+)/?.*`
against a character list: on success, the scheme, the `www.` part (possibly
empty), the non-empty digit group and the unconsumed remainder.  The trailing
`/?.*` of the regex always matches, so it constrains nothing. -/
def matchFiction (domain : String) (cs : List Char) :
    Option (List Char × List Char × List Char × List Char) :=
  match schemeSplit cs with
  | none => none
  | some (sch, r1) =>
    match wwwSplit r1 with
    | (w, r2) =>
      match stripP (fictionPath domain) r2 with
      | none => none
      | some r3 =>
        let d := r3.takeWhile Char.isDigit
        if d.isEmpty then none
        else some (sch, w, d, r3.drop d.length)

/-- `RoyalRoad.matches` (src/sites/royalroad.py lines 40-45), parameterized
by the class's `domain` attribute: on a regex match, `match.group(1) + '/'`;
otherwise Python falls off the method and returns `None`. -/
def matchesFor (domain : String) (url : String) : Option String :=
  match matchFiction domain url.data with
  | some (sch, w, d, _) => some ⟨sch ++ w ++ fictionPath domain ++ d ++ ['/']⟩
  | none => none

/-- The `domain` class attribute of `RoyalRoad`. -/
def RoyalRoad.domain : String := "royalroad"

/-- `RoyalRoad.matches` at the concrete `royalroad` domain. -/
def RoyalRoad.matches (url : String) : Option String :=
  matchesFor RoyalRoad.domain url

/-- The work-id extraction of `extract` (line 48):
`re.match(r'^https?://(?:www\.)?<domain>\.com/fiction/(\d+)/?.*', url).group(1)`;
`None` models the `AttributeError` raised on `.group` when there is no match. -/
def workIdOf (domain : String) (url : String) : Option String :=
  match matchFiction domain url.data with
  | some (_, _, d, _) => some ⟨d⟩
  | none => none

/-- `display:\s*none;` occurs at the head of the list. -/
def dnAt (cs : List Char) : Bool :=
  match stripP "display:".data cs with
  | none => false
  | some r =>
    match stripP "none;".data (r.dropWhile pySpace) with
    | some _ => true
    | none => false

/-- `display:\s*none;` occurs somewhere in the list. -/
def hasDN : List Char → Bool
  | [] => false
  | c :: t => dnAt (c :: t) || hasDN t

/-- Model of `re.match(r'\s*\.(\w+)\s*{[^}]*display:\s*none;[^}]*}', s)`
(line 118): leading whitespace, a dot, a non-empty greedy `\w+` class name,
optional whitespace, an opening brace; the declaration block before the
first closing brace (which must exist, since `[^}]` cannot cross it) must
contain `display:\s*none;`.  Returns the captured class name. -/
def parseRule (s : String) : Option String :=
  match s.data.dropWhile pySpace with
  | '.' :: rest =>
    let w := rest.takeWhile pyWord
    if w.isEmpty then none
    else
      match (rest.drop w.length).dropWhile pySpace with
      | '\x7b' :: r3 =>
        let blk := r3.takeWhile (fun c => c ≠ '\x7d')
        if (r3.drop blk.length).isEmpty then none
        else if hasDN blk then some ⟨w⟩ else none
      | _ => none
  | _ => none

mutual
/-- `warning.decompose()` over `contents.find_all(class_=c)` (lines 119-120):
every strict descendant carrying class `c` is removed; nothing recurses into
removed subtrees, which are discarded whole. -/
def removeCl (c : String) : Node → Node
  | .text s => .text s
  | .elem t cls attrs ch => .elem t cls attrs (removeClList c ch)
def removeClList (c : String) : List Node → List Node
  | [] => []
  | n :: ns =>
    if hasClass c n then removeClList c ns
    else removeCl c n :: removeClList c ns
end

/-- `full_page.find_all('style')` (line 117). -/
def stylesOf (page : Node) : List Node :=
  findAllIn (isTag "style") page

/-- One iteration of the hidden-warning loop body for one style tag:
`style.string` of a tag that does not hold a single string is `None`, and
`re.match` on `None` raises `TypeError` (modelled as `Except.error`). -/
def warnStep (contents : Node) (st : Node) : Except Unit Node :=
  match stringOf st with
  | none => .error ()
  | some s =>
    match parseRule s with
    | some cls => .ok (removeCl cls contents)
    | none => .ok contents

/-- The hidden-warning loop over all style tags, in document order. -/
def warnFold : List Node → Node → Except Unit Node
  | [], c => .ok c
  | st :: rest, c =>
    match warnStep c st with
    | .error e => .error e
    | .ok c2 => warnFold rest c2

/-- The site-specific hidden-warning remover of `RoyalRoad._clean`
(lines 115-121): scan every style block of the page and strip the classes
declared `display: none`. -/
def cleanWarnings (contents : Node) (page : Node) : Except Unit Node :=
  warnFold (stylesOf page) contents

/-- The classes captured by the style scan, in document order (only
meaningful when no style block is string-less). -/
def matchedClasses (page : Node) : List String :=
  (stylesOf page).filterMap (fun st =>
    match stringOf st with
    | some s => parseRule s
    | none => none)

/-- `RoyalRoad._clean(contents, full_page)` (lines 111-122).  Modelled from
the spec: `super()._clean` is the generic content cleaner of the framework
(spec section 6), whose code is not under src/; the spec leaves its behavior
to the shared framework, so it is taken here as an arbitrary function
parameter `baseClean` that cleans the element in place and returns it (the
in-place reading is the one under which the site-specific removal is
observable in the chapter output, as the spec's own testable properties
require). -/
def clean (baseClean : Node → Node) (contents page : Node) : Except Unit Node :=
  cleanWarnings (baseClean contents) page

/-- `tag['k'] = v`: set or overwrite an attribute. -/
def setAttr (n : Node) (k v : String) : Node :=
  match n with
  | .text s => .text s
  | .elem t cls attrs ch =>
    if attrs.any (fun p => p.1 == k)
    then .elem t cls (attrs.map (fun p => if p.1 == k then (k, v) else p)) ch
    else .elem t cls (attrs ++ [(k, v)]) ch

/-- `find('div', class_=c)` predicate. -/
def isDivClass (c : String) (n : Node) : Bool :=
  isTag "div" n && hasClass c n

/-- The class list of a tag (empty for a tag without a `class` attribute). -/
def classesOf : Node → List String
  | .text _ => []
  | .elem _ cls _ _ => cls

/-- The per-spoiler body of `RoyalRoad._clean_spoilers` (lines 126-149).
The small-text label is looked up first; a missing label block means
`None.get_text`, an `AttributeError` (`Except.error`).  An empty stripped
label falls back to a single space (Python string truthiness).  The header
tag comes from the new-tag collaborator (`self._new_tag`, spec section 6).
If the `spoilerContent` block, or the `spoiler-inner` block within it, is
missing, the spoiler is left untouched (`Except.ok none`).  Otherwise the
source inserts the header before the wrapper, moves the inner block right
after the header, blanks its inline style, extracts the remaining
`div`/`input` descendants of the wrapper and extracts the wrapper: the net
replacement of the wrapper is the pair (header, restyled inner block),
returned here as `Except.ok (some ...)`. -/
def processSpoiler (sp : Node) : Except Unit (Option (Node × Node)) :=
  match findIn (isDivClass "smalltext") sp with
  | none => .error ()
  | some lbl =>
    let t0 := getTextStrip lbl
    let title := if t0 == "" then " " else t0
    let hdr := Node.elem "strong" ["spoiler-header"] [] [Node.text ("[SPOILER - " ++ title ++ "]")]
    match findIn (isDivClass "spoilerContent") sp with
    | none => .ok none
    | some sc =>
      match findIn (isDivClass "spoiler-inner") sc with
      | none => .ok none
      | some inner => .ok (some (hdr, setAttr inner "style" ""))

mutual
/-- Document-order traversal applying `processSpoiler` to every element of
class `spoiler` (the `content.find_all(class_='spoiler')` loop, line 125).
The source iterates over a pre-collected list while mutating the tree in
place; this is modelled as one structural document-order pass.  A nested
spoiler inside another spoiler's subtree is normalized in place before the
enclosing spoiler's lookups run, where the source performs the enclosing
spoiler's lookups first; on any content in which no spoiler element contains
another spoiler-classed element, the two orders coincide. -/
def csNode : Node → Except Unit Node
  | .text s => .ok (.text s)
  | .elem t cls attrs ch =>
    match csList ch with
    | .error e => .error e
    | .ok ch2 => .ok (.elem t cls attrs ch2)
def csList : List Node → Except Unit (List Node)
  | [] => .ok []
  | n :: ns =>
    if hasClass "spoiler" n then
      match csNode n with
      | .error e => .error e
      | .ok n2 =>
        match processSpoiler n2 with
        | .error e => .error e
        | .ok none =>
          match csList ns with
          | .error e => .error e
          | .ok ns2 => .ok (n2 :: ns2)
        | .ok (some (hdr, inner)) =>
          match csList ns with
          | .error e => .error e
          | .ok ns2 => .ok (hdr :: inner :: ns2)
    else
      match csNode n with
      | .error e => .error e
      | .ok n2 =>
        match csList ns with
        | .error e => .error e
        | .ok ns2 => .ok (n2 :: ns2)
end

/-- `RoyalRoad._clean_spoilers(content, chapterid)` (lines 124-149).  The
`chapterid` argument is accepted and never read, exactly as in the source. -/
def clean_spoilers (content : Node) (chapterid : Nat) : Except Unit Node :=
  csNode content

/-- External collaborators of `RoyalRoad` (spec section 6), none of whose
code is under src/.  Modelled from the spec: `url` is the input URL,
`fetch` the HTTP+HTML fetch/parse (`self._soup`), `baseClean` the generic
content cleaner (`super()._clean`), `footnotes` the footnote side-channel
the shared cleaner accumulates on the site object. -/
structure Env where
  url : String
  fetch : String → Except Unit Node
  baseClean : Node → Node
  footnotes : List String

/-- The site-specific options of `RoyalRoad.get_site_specific_option_defs`
(lines 17-37): `skip_spoilers` defaults to `True`; `offset` and `limit` are
optional integers. -/
structure Options where
  skip_spoilers : Bool := true
  offset : Option Int := none
  limit : Option Int := none

/-- Python truthiness of an optional-integer option: `None` and `0` are
falsy. -/
def truthyOpt : Option Int → Bool
  | none => false
  | some v => v != 0

/-- Modelled from the spec: the URL join/resolve collaborator
(`self._join_url`, spec section 6).  Absolute references are kept, others
appended to the base; precise RFC 3986 resolution is immaterial here — no
claim inspects the joined URL's shape. -/
def joinUrl (base ref : String) : String :=
  if (stripP "http://".data ref.data).isSome || (stripP "https://".data ref.data).isSome
  then ref else base ++ ref

/-- Python `str(...)` of an optional attribute value: `str(None)` is the
string `"None"`. -/
def strOfOpt : Option String → String
  | some s => s
  | none => "None"

/-- Numeric value of a digit list. -/
def digitsVal (ds : List Char) : Nat :=
  ds.foldl (fun a c => a * 10 + (c.toNat - '0'.toNat)) 0

/-- Python `int(s)` on a string: surrounding whitespace allowed, optional
sign, at least one ASCII digit; anything else raises `ValueError`. -/
def pyInt (s : String) : Except Unit Int :=
  let cs := ((s.data.dropWhile pySpace).reverse.dropWhile pySpace).reverse
  match cs with
  | '-' :: ds =>
    if ds.isEmpty || !ds.all Char.isDigit then .error ()
    else .ok (-(Int.ofNat (digitsVal ds)))
  | '+' :: ds =>
    if ds.isEmpty || !ds.all Char.isDigit then .error ()
    else .ok (Int.ofNat (digitsVal ds))
  | ds =>
    if ds.isEmpty || !ds.all Char.isDigit then .error ()
    else .ok (Int.ofNat (digitsVal ds))

/-- Lines 86-90 of `_chapter`: locate the `chapter-content` block (a missing
block means `self._clean(None, soup)` dereferences `None`), apply
`self._clean` and then — unconditionally — `self._clean_spoilers`. -/
def cleanedContent (env : Env) (soup : Node) (chapterid : Nat) : Except Unit Node :=
  match findIn (isDivClass "chapter-content") soup with
  | none => .error ()
  | some content0 =>
    match clean env.baseClean content0 soup with
    | .error e => .error e
    | .ok c1 => clean_spoilers c1 chapterid

/-- Lines 87-92 of `_chapter` ending in `content = str(content)`. -/
def cleanedContentStr (env : Env) (soup : Node) (chapterid : Nat) : Except Unit String :=
  match cleanedContent env soup chapterid with
  | .error e => .error e
  | .ok c2 => .ok (serialize c2)

/-- Lines 94-103 of `_chapter`: the author-note merge.  With exactly one
note, the source re-finds the `chapter-content` div, takes its parent, finds
the parent's first `div` descendant and reads its `class` attribute
(`None['class']` and a class-less `div` both raise, modelled as errors); the
note is prepended or appended with an `<hr/>` separator accordingly.  With
exactly two notes the first is prepended and the second appended.  Any other
count leaves the content string unchanged. -/
def notesMerge (soup : Node) (contentStr : String) : Except Unit String :=
  match findAllIn (isDivClass "author-note-portlet") soup with
  | [note] =>
    match parentIn (isDivClass "chapter-content") soup with
    | none => .error ()
    | some par =>
      match findIn (isTag "div") par with
      | none => .error ()
      | some d =>
        if (classesOf d).isEmpty then .error ()
        else if (classesOf d).contains "author-note-portlet"
        then .ok (serialize note ++ "<hr/>" ++ contentStr)
        else .ok (contentStr ++ "<hr/>" ++ serialize note)
  | [n1, n2] => .ok (serialize n1 ++ "<hr/>" ++ contentStr ++ "<hr/>" ++ serialize n2)
  | _ => .ok contentStr

/-- Lines 105-107 of `_chapter`: the `unixtime` attribute of the first
`time` element inside the `profile-info` block, parsed with `int`.  The
`datetime.fromtimestamp` local-time conversion is the external datetime
library and is modelled as the raw Unix value; no claim depends on it. -/
def timestampOf (soup : Node) : Except Unit Int :=
  match findIn (hasClass "profile-info") soup with
  | none => .error ()
  | some prof =>
    match findIn (isTag "time") prof with
    | none => .error ()
    | some tm =>
      match getAttr tm "unixtime" with
      | none => .error ()
      | some s => pyInt s

/-- `RoyalRoad._chapter(url, chapterid)` (lines 84-109): fetch and parse the
chapter page, clean its content, merge author notes, extract the timestamp.
The method has access to `self.options` (passed here as `opts`) and reads
none of them — in particular `skip_spoilers` is never consulted. -/
def chapterParse (env : Env) (opts : Options) (url : String) (chapterid : Nat) :
    Except Unit (String × Int) :=
  match env.fetch url with
  | .error e => .error e
  | .ok soup =>
    match cleanedContentStr env soup chapterid with
    | .error e => .error e
    | .ok s1 =>
      match notesMerge soup s1 with
      | .error e => .error e
      | .ok s2 =>
        match timestampOf soup with
        | .error e => .error e
        | .ok ts => .ok (s2, ts)

/-- A produced chapter (spec section 3; the framework `Chapter` class is not
under src/ and is modelled from the spec: title, contents, timestamp). -/
structure Chapter where
  title : String
  contents : String
  date : Int

/-- The produced story (spec section 3; the framework `Section` class is not
under src/ and is modelled from the spec: metadata fields, the ordered
chapter sequence to which `story.add` appends and whose length `len(story)`
returns, and the footnote side-channel attached at the end). -/
structure Story where
  title : String
  author : String
  url : String
  cover_url : String
  summary : String
  tags : List String
  chapters : List Chapter
  footnotes : List String

mutual
/-- CSS select `#chapters tbody tr[data-url]` (line 67): `tr` elements
carrying a `data-url` attribute, with a `tbody` proper ancestor that itself
has a proper ancestor with id `chapters`, in document order.  The flags say
whether the visited node already has such ancestors. -/
def rowsIn (inCh inTb : Bool) : Node → List Node
  | .text _ => []
  | n@(.elem tag _ _ ch) =>
    let inCh2 := inCh || (getAttr n "id" == some "chapters")
    let inTb2 := inTb || (inCh && tag == "tbody")
    (if inTb && tag == "tr" && (getAttr n "data-url").isSome then [n] else []) ++
      rowsList inCh2 inTb2 ch
def rowsList (inCh inTb : Bool) : List Node → List Node
  | [] => []
  | n :: ns => rowsIn inCh inTb n ++ rowsList inCh inTb ns
end

/-- The full chapter-row selection on the landing page. -/
def selectChapterRows (soup : Node) : List Node :=
  rowsIn false false soup

mutual
/-- CSS select `span.tags a.fiction-tag` (line 64): `a.fiction-tag` elements
with a `span.tags` proper ancestor, in document order. -/
def tagsIn (inSpan : Bool) : Node → List Node
  | .text _ => []
  | n@(.elem tag _ _ ch) =>
    let inSpan2 := inSpan || (tag == "span" && hasClass "tags" n)
    (if inSpan && tag == "a" && hasClass "fiction-tag" n then [n] else []) ++
      tagsList inSpan2 ch
def tagsList (inSpan : Bool) : List Node → List Node
  | [] => []
  | n :: ns => tagsIn inSpan n ++ tagsList inSpan ns
end

/-- The full fiction-tag selection on the landing page. -/
def selectFictionTags (soup : Node) : List Node :=
  tagsIn false soup

/-- The `Section(...)` construction of `extract` (lines 58-65), in the
source's argument evaluation order; every missing required element is an
unrecovered error.  A missing description div makes `str(None)` the summary
string `"None"` (no error), as in Python. -/
def buildStory (env : Env) (soup : Node) (base : String) : Except Unit Story :=
  match findIn (isTag "h1") soup with
  | none => .error ()
  | some h1 =>
    match stringOf h1 with
    | none => .error ()
    | some t =>
      match findIn (fun n => isTag "meta" n && (getAttr n "property" == some "books:author")) soup with
      | none => .error ()
      | some am =>
        match getAttr am "content" with
        | none => .error ()
        | some a =>
          match findIn (fun n => isTag "meta" n && (getAttr n "property" == some "og:url")) soup with
          | none => .error ()
          | some um =>
            match getAttr um "content" with
            | none => .error ()
            | some u =>
              match findIn (fun n => isTag "img" n && hasClass "thumbnail" n) soup with
              | none => .error ()
              | some img =>
                match getAttr img "src" with
                | none => .error ()
                | some src =>
                  .ok { title := pyStrip t
                        author := pyStrip a
                        url := pyStrip u
                        cover_url := joinUrl base src
                        summary := pyStrip (match findIn (isDivClass "description") soup with
                          | some d => serialize d
                          | none => "None")
                        tags := (selectFictionTags soup).map (fun tg => pyStrip (getText tg))
                        chapters := []
                        footnotes := [] }

/-- The chapter loop of `extract` (lines 67-75) over the enumerated,
unfiltered row list: the two `continue` guards use Python truthiness of the
`offset`/`limit` options; an included row is fetched and parsed with
`_chapter` at position `len(story) + 1`, then a `Chapter` titled by the
row's first `a[href]` anchor string is appended. -/
def chapterLoop (env : Env) (opts : Options) : List (Nat × Node) → Story → Except Unit Story
  | [], st => .ok st
  | (index, row) :: rest, st =>
    if truthyOpt opts.offset && decide ((index : Int) < opts.offset.getD 0) then
      chapterLoop env opts rest st
    else if truthyOpt opts.limit && decide ((index : Int) ≥ opts.limit.getD 0) then
      chapterLoop env opts rest st
    else
      match chapterParse env opts (joinUrl st.url (strOfOpt (getAttr row "data-url")))
          (st.chapters.length + 1) with
      | .error e => .error e
      | .ok (contents, updated) =>
        match findIn (fun n => isTag "a" n && (getAttr n "href").isSome) row with
        | none => .error ()
        | some anchor =>
          match stringOf anchor with
          | none => .error ()
          | some ttl =>
            chapterLoop env opts rest
              { st with chapters :=
                  st.chapters ++ [{ title := pyStrip ttl, contents := contents, date := updated }] }

/-- Line 52 of `extract`: `soup.head.base and soup.head.base.get('href') or
url` — the base URL for relative-link resolution, with Python `and`/`or`
truthiness (a missing `base` tag, a missing `href` and an empty `href`
string all fall back to the input URL). -/
def baseOf (env : Env) (hd : Node) : String :=
  match findIn (isTag "base") hd with
  | none => env.url
  | some b =>
    match getAttr b "href" with
    | some s => if s == "" then env.url else s
    | none => env.url

/-- `RoyalRoad.extract(url)` (lines 47-82) with the global
`http.client._MAXHEADERS` threaded as explicit state: the pair holds the
extraction outcome and the final value of the global, starting from `h0`.
The work id is re-extracted from the input URL (a non-match raises before
the global is touched), the landing page fetched from the canonical
`https://www.<domain>.com/fiction/<id>` host, the base URL resolved from
`<base href>` with Python `and`/`or` truthiness, then the source saves the
global and sets it to 1000; the `Section` construction and the chapter loop
run with the raised value and their errors propagate with no restore (the
source has no try/finally); on success the global is restored and the
accumulated footnotes attached. -/
def extractFor (domain : String) (env : Env) (opts : Options) (h0 : Nat) :
    Except Unit Story × Nat :=
  match workIdOf domain env.url with
  | none => (.error (), h0)
  | some workid =>
    match env.fetch ("https://www." ++ domain ++ ".com/fiction/" ++ workid) with
    | .error e => (.error e, h0)
    | .ok soup =>
      match findIn (isTag "head") soup with
      | none => (.error (), h0)
      | some hd =>
        match buildStory env soup (baseOf env hd) with
        | .error e => (.error e, 1000)
        | .ok story0 =>
          match chapterLoop env opts (selectChapterRows soup).enum story0 with
          | .error e => (.error e, 1000)
          | .ok story1 => (.ok { story1 with footnotes := env.footnotes }, h0)

/-- `RoyalRoad.extract` at the concrete `royalroad` domain. -/
def RoyalRoad.extract (env : Env) (opts : Options) (h0 : Nat) : Except Unit Story × Nat :=
  extractFor RoyalRoad.domain env opts h0

/-- The `Except` outcome is a success. -/
def isOkB {α : Type} : Except Unit α → Bool
  | .ok _ => true
  | .error _ => false

/-- Chapter titles of a successful extraction outcome (empty on error). -/
def storyTitles : Except Unit Story → List String
  | .ok s => s.chapters.map (fun c => c.title)
  | .error _ => []

/-- `sub` occurs as a contiguous sublist. -/
def hasSub (sub : List Char) : List Char → Bool
  | [] => sub.isEmpty
  | c :: t => (stripP sub (c :: t)).isSome || hasSub sub t

/-- Substring test on strings. -/
def containsSub (s sub : String) : Bool :=
  hasSub sub.data s.data

/-- A well-formed spoiler block as served by the site: label, then the
hidden `spoilerContent`/`spoiler-inner` nesting. -/
def spoilerBlock : Node :=
  .elem "div" ["spoiler"] [] [
    .elem "div" ["smalltext"] [] [.text " Hint "],
    .elem "div" ["spoilerContent"] [] [
      .elem "div" ["spoiler-inner"] [("style", "display:none")] [.text "the answer is 42"],
      .elem "input" [] [("type", "checkbox")] [] ] ]

/-- A chapter page whose content holds one spoiler block. -/
def chapterPageSp : Node :=
  .elem "html" [] [] [
    .elem "div" ["chapter-content"] [] [spoilerBlock],
    .elem "div" ["profile-info"] [] [.elem "time" [] [("unixtime", "1700000000")] []] ]

/-- Environment serving `chapterPageSp` for every URL. -/
def envSp : Env :=
  { url := "https://www.royalroad.com/fiction/1/x"
    fetch := fun _ => .ok chapterPageSp
    baseClean := id
    footnotes := [] }

/-- C1: the claim says spoiler normalization runs if and only if
`skip_spoilers` is enabled.  In the code, `_chapter` (line 90) calls
`_clean_spoilers` unconditionally and `self.options['skip_spoilers']` is
never read, although the declared option help promises it controls spoiler
transcription: on a chapter page with one spoiler block, the parse result
with `skip_spoilers := false` equals the result with `skip_spoilers :=
true`, and it contains the inserted `[SPOILER - ...]` header. -/
theorem c1_spoilers_normalized_even_when_skip_spoilers_false :
    chapterParse envSp { skip_spoilers := false } "u" 1 =
      chapterParse envSp { skip_spoilers := true } "u" 1 ∧
    (match chapterParse envSp { skip_spoilers := false } "u" 1 with
     | .ok (s, _) => containsSub s "[SPOILER - "
     | .error _ => false) = true :=
  ⟨rfl, by decide⟩

/-- The landing page of the concrete successful extraction environment. -/
def landPage : Node :=
  .elem "html" [] [] [
    .elem "head" [] [] [],
    .elem "h1" [] [] [.text " T "],
    .elem "meta" [] [("property", "books:author"), ("content", "A")] [],
    .elem "meta" [] [("property", "og:url"), ("content", "https://www.royalroad.com/fiction/123/")] [],
    .elem "img" ["thumbnail"] [("src", "/cover.png")] [],
    .elem "div" ["description"] [] [.text "D"],
    .elem "span" ["tags"] [] [.elem "a" ["fiction-tag"] [("href", "/t")] [.text "Fantasy "]],
    .elem "div" [] [("id", "chapters")] [.elem "tbody" [] [] [
      .elem "tr" [] [("data-url", "/chap/1")] [.elem "a" [] [("href", "/chap/1")] [.text "Alpha"]],
      .elem "tr" [] [("data-url", "/chap/2")] [.elem "a" [] [("href", "/chap/2")] [.text "Beta"]] ] ] ]

/-- A plain chapter page with no notes and no spoilers. -/
def chPage : Node :=
  .elem "html" [] [] [
    .elem "div" ["chapter-content"] [] [.text "Body"],
    .elem "div" ["profile-info"] [] [.elem "time" [] [("unixtime", "1700000000")] []] ]

/-- An environment on which the whole extraction succeeds. -/
def goodEnv : Env :=
  { url := "https://www.royalroad.com/fiction/123/some-slug"
    fetch := fun u =>
      if u == "https://www.royalroad.com/fiction/123" then .ok landPage else .ok chPage
    baseClean := id
    footnotes := [] }

/-- An environment whose landing fetch succeeds but whose chapter fetches
fail, so the chapter loop raises. -/
def envFetchFail : Env :=
  { goodEnv with
    fetch := fun u =>
      if u == "https://www.royalroad.com/fiction/123" then .ok landPage else .error () }

/-- C2 counterexample: the claim says `http.client._MAXHEADERS` equals its
pre-extraction value after `extract` finishes even when it terminates with
an error raised during the chapter loop.  `extract` has no try/finally
(lines 54, 77): on an environment whose chapter fetch fails, starting from
the default value 100, the global is left at the raised value 1000. -/
theorem c2_maxheaders_left_raised_on_chapter_fetch_failure :
    (RoyalRoad.extract envFetchFail {} 100).2 = 1000 ∧
    ((RoyalRoad.extract envFetchFail {} 100).2 == 100) = false :=
  ⟨rfl, by decide⟩

/-- C2 amended: `http.client._MAXHEADERS` equals its pre-extraction value
after `extract` finishes whenever `extract` returns a Story (and also on
failures raised before the override is installed); an error raised after
the override — during metadata extraction or the chapter loop — instead
leaves the raised value 1000 in place. -/
theorem c2_maxheaders_restored_on_success (domain : String) (env : Env) (opts : Options)
    (h0 : Nat) (h : isOkB (extractFor domain env opts h0).1 = true) :
    (extractFor domain env opts h0).2 = h0 := by
  unfold extractFor at h ⊢
  cases hw : workIdOf domain env.url with
  | none => simp [hw, isOkB] at h
  | some wid =>
    simp only [hw] at h ⊢
    cases hf : env.fetch ("https://www." ++ domain ++ ".com/fiction/" ++ wid) with
    | error e => simp [hf, isOkB] at h
    | ok soup =>
      simp only [hf] at h ⊢
      cases hh : findIn (isTag "head") soup with
      | none => simp [hh, isOkB] at h
      | some hd =>
        simp only [hh] at h ⊢
        cases hb : buildStory env soup (baseOf env hd) with
        | error e => simp [hb, isOkB] at h
        | ok story0 =>
          simp only [hb] at h ⊢
          cases hl : chapterLoop env opts (selectChapterRows soup).enum story0 with
          | error e => simp [hl, isOkB] at h
          | ok story1 => simp only [hl]

/-- Witness for C2: the concrete successful environment restores the
pre-extraction value 100. -/
theorem c2_maxheaders_restored_on_success_witness :
    isOkB (extractFor "royalroad" goodEnv {} 100).1 = true ∧
    (extractFor "royalroad" goodEnv {} 100).2 = 100 :=
  ⟨by decide, c2_maxheaders_restored_on_success "royalroad" goodEnv {} 100 (by decide)⟩

/-- The row-inclusion test actually performed by the two `continue` guards
of the chapter loop (lines 68-71), with Python truthiness. -/
def pyKeep (opts : Options) (i : Nat) : Bool :=
  !(truthyOpt opts.offset && decide ((i : Int) < opts.offset.getD 0)) &&
  !(truthyOpt opts.limit && decide ((i : Int) ≥ opts.limit.getD 0))

/-- The spec-side selection predicate, written from the claim's words as
amended: the zero-based index over the full unfiltered row list lies in the
half-open range `[offset, limit)`, offset defaulting to 0 and limit to
unbounded when unset — with the amendment forced by Python truthiness that
a `limit` equal to 0 means unbounded rather than the empty range (an
`offset` of 0 needs no amendment: it coincides with the default). -/
def specKeep (opts : Options) (i : Nat) : Bool :=
  decide (opts.offset.getD 0 ≤ (i : Int)) &&
  (match opts.limit with
   | none => true
   | some v => if v = 0 then true else decide ((i : Int) < v))

/-- The two predicates agree everywhere. -/
theorem pyKeep_eq_specKeep (opts : Options) (i : Nat) :
    pyKeep opts i = specKeep opts i := by
  obtain ⟨sk, off, lim⟩ := opts
  rw [Bool.eq_iff_iff]
  unfold pyKeep specKeep truthyOpt
  cases off with
  | none =>
    cases lim with
    | none => simp
    | some v => by_cases hv : v = 0 <;> simp [hv] <;> omega
  | some a =>
    cases lim with
    | none => by_cases ha : a = 0 <;> simp [ha] <;> omega
    | some v =>
      by_cases ha : a = 0 <;> by_cases hv : v = 0 <;> simp [ha, hv] <;> omega

/-- The chapter title computed from a row: its first `a[href]` anchor's
string, stripped (only meaningful when the row parses successfully). -/
def titleOfRow (row : Node) : String :=
  match findIn (fun n => isTag "a" n && (getAttr n "href").isSome) row with
  | none => ""
  | some anchor =>
    match stringOf anchor with
    | none => ""
    | some ttl => pyStrip ttl

/-- The work done by one included loop iteration, with the chapter position
argument fixed to 0 (it is never read: see `clean_spoilers`). -/
def rowChapter (env : Env) (opts : Options) (surl : String) (row : Node) : Except Unit Chapter :=
  match chapterParse env opts (joinUrl surl (strOfOpt (getAttr row "data-url"))) 0 with
  | .error e => .error e
  | .ok (contents, updated) =>
    match findIn (fun n => isTag "a" n && (getAttr n "href").isSome) row with
    | none => .error ()
    | some anchor =>
      match stringOf anchor with
      | none => .error ()
      | some ttl => .ok { title := pyStrip ttl, contents := contents, date := updated }

/-- Sequential chapter production over a row list, stopping at the first
error. -/
def chaptersOfRows (env : Env) (opts : Options) (surl : String) :
    List (Nat × Node) → Except Unit (List Chapter)
  | [] => .ok []
  | p :: rest =>
    match rowChapter env opts surl p.2 with
    | .error e => .error e
    | .ok c =>
      match chaptersOfRows env opts surl rest with
      | .error e => .error e
      | .ok cs => .ok (c :: cs)

/-- `_chapter` never reads its chapter-position argument. -/
theorem chapterParse_chapterid (env : Env) (opts : Options) (url : String) (c1 c2 : Nat) :
    chapterParse env opts url c1 = chapterParse env opts url c2 := rfl

/-- The chapter loop equals filtering the enumerated rows by the guard
predicate and producing a chapter per kept row, appended to the accumulator. -/
theorem chapterLoop_eq (env : Env) (opts : Options) :
    ∀ (rows : List (Nat × Node)) (st : Story),
    chapterLoop env opts rows st =
      match chaptersOfRows env opts st.url (rows.filter (fun p => pyKeep opts p.1)) with
      | .error e => .error e
      | .ok cs => .ok { st with chapters := st.chapters ++ cs } := by
  intro rows
  induction rows with
  | nil => intro st; simp [chapterLoop, chaptersOfRows]
  | cons hd rest ih =>
    intro st
    obtain ⟨i, row⟩ := hd
    by_cases hg1 : (truthyOpt opts.offset && decide ((i : Int) < opts.offset.getD 0)) = true
    · have hk : pyKeep opts i = false := by simp [pyKeep, hg1]
      simp only [chapterLoop, hg1, if_true, List.filter_cons, hk, Bool.false_eq_true, if_false]
      exact ih st
    · by_cases hg2 : (truthyOpt opts.limit && decide ((i : Int) ≥ opts.limit.getD 0)) = true
      · have hk : pyKeep opts i = false := by simp [pyKeep, hg2]
        simp only [chapterLoop, hg1, hg2, Bool.false_eq_true, if_false, if_true,
          List.filter_cons, hk]
        exact ih st
      · have hk : pyKeep opts i = true := by simp [pyKeep, hg1, hg2]
        simp only [chapterLoop, hg1, hg2, Bool.false_eq_true, if_false, List.filter_cons, hk,
          if_true]
        rw [chapterParse_chapterid env opts _ (st.chapters.length + 1) 0]
        cases hc : chapterParse env opts (joinUrl st.url (strOfOpt (getAttr row "data-url"))) 0 with
        | error e => simp [chaptersOfRows, rowChapter, hc]
        | ok cu =>
          obtain ⟨contents, updated⟩ := cu
          cases ha : findIn (fun n => isTag "a" n && (getAttr n "href").isSome) row with
          | none => simp [chaptersOfRows, rowChapter, hc, ha]
          | some anchor =>
            cases ht : stringOf anchor with
            | none => simp [chaptersOfRows, rowChapter, hc, ha, ht]
            | some ttl =>
              simp only [chaptersOfRows, rowChapter, hc, ha, ht]
              rw [ih]
              cases hcs : chaptersOfRows env opts st.url (rest.filter (fun p => pyKeep opts p.1)) with
              | error e => simp
              | ok cs => simp [List.append_assoc]

/-- A successfully produced chapter is titled by its row's anchor string. -/
theorem rowChapter_title (env : Env) (opts : Options) (surl : String) (row : Node)
    (ch : Chapter) (h : rowChapter env opts surl row = .ok ch) :
    ch.title = titleOfRow row := by
  unfold rowChapter at h
  cases hc : chapterParse env opts (joinUrl surl (strOfOpt (getAttr row "data-url"))) 0 with
  | error e => simp [hc] at h
  | ok cu =>
    obtain ⟨c, u⟩ := cu
    simp only [hc] at h
    cases ha : findIn (fun n => isTag "a" n && (getAttr n "href").isSome) row with
    | none => simp [ha] at h
    | some anchor =>
      simp only [ha] at h
      cases ht : stringOf anchor with
      | none => simp [ht] at h
      | some ttl =>
        simp only [ht, Except.ok.injEq] at h
        subst h
        simp [titleOfRow, ha, ht]

/-- Titles of a successful chapter production, row by row. -/
theorem chaptersOfRows_titles (env : Env) (opts : Options) (surl : String) :
    ∀ (rows : List (Nat × Node)) (cs : List Chapter),
    chaptersOfRows env opts surl rows = .ok cs →
    cs.map (fun c => c.title) = rows.map (fun p => titleOfRow p.2) := by
  intro rows
  induction rows with
  | nil =>
    intro cs h
    simp only [chaptersOfRows, Except.ok.injEq] at h
    subst h
    simp
  | cons p rest ih =>
    intro cs h
    simp only [chaptersOfRows] at h
    cases hc : rowChapter env opts surl p.2 with
    | error e => simp [hc] at h
    | ok c =>
      simp only [hc] at h
      cases hcs : chaptersOfRows env opts surl rest with
      | error e => simp [hcs] at h
      | ok cs2 =>
        simp only [hcs, Except.ok.injEq] at h
        subst h
        simp only [List.map_cons]
        rw [rowChapter_title env opts surl p.2 c hc, ih cs2 hcs]

/-- A freshly built `Section` has no chapters yet. -/
theorem buildStory_chapters (env : Env) (soup : Node) (base : String) (st : Story)
    (hb : buildStory env soup base = .ok st) : st.chapters = [] := by
  unfold buildStory at hb
  cases h1 : findIn (isTag "h1") soup with
  | none => simp [h1] at hb
  | some hh =>
    simp only [h1] at hb
    cases h2 : stringOf hh with
    | none => simp [h2] at hb
    | some t =>
      simp only [h2] at hb
      cases h3 : findIn (fun n => isTag "meta" n && (getAttr n "property" == some "books:author")) soup with
      | none => simp [h3] at hb
      | some am =>
        simp only [h3] at hb
        cases h4 : getAttr am "content" with
        | none => simp [h4] at hb
        | some a =>
          simp only [h4] at hb
          cases h5 : findIn (fun n => isTag "meta" n && (getAttr n "property" == some "og:url")) soup with
          | none => simp [h5] at hb
          | some um =>
            simp only [h5] at hb
            cases h6 : getAttr um "content" with
            | none => simp [h6] at hb
            | some u =>
              simp only [h6] at hb
              cases h7 : findIn (fun n => isTag "img" n && hasClass "thumbnail" n) soup with
              | none => simp [h7] at hb
              | some img =>
                simp only [h7] at hb
                cases h8 : getAttr img "src" with
                | none => simp [h8] at hb
                | some src =>
                  simp only [h8, Except.ok.injEq] at hb
                  subst hb
                  rfl

/-- C3 counterexample: the claim says that with `limit = 0` the produced
story contains exactly the chapters with index in the empty range `[0, 0)`,
i.e. none.  Python truthiness makes `self.options['limit'] and ...` skip the
guard when the limit is 0 (line 70): on the concrete two-chapter
environment, every chapter is included. -/
theorem c3_limit_zero_keeps_all_chapters :
    storyTitles (RoyalRoad.extract goodEnv { limit := some 0 } 100).1 = ["Alpha", "Beta"] ∧
    isOkB (RoyalRoad.extract goodEnv { limit := some 0 } 100).1 = true :=
  ⟨rfl, rfl⟩

/-- C3 amended: for every run of `extract` that returns a Story, the story's
chapters are exactly the landing-page chapter rows whose zero-based index
over the full unfiltered row list satisfies the `[offset, limit)` selection
— offset defaulting to 0 and limit to unbounded when unset — with the
amendment that a `limit` of 0 is treated as unbounded rather than as the
empty range (`specKeep`); chapters appear in table-of-contents order, each
titled by its row's anchor text. -/
theorem c3_chapters_are_offset_limit_slice (domain : String) (env : Env) (opts : Options)
    (h0 : Nat) (wid : String) (soup : Node)
    (hw : workIdOf domain env.url = some wid)
    (hf : env.fetch ("https://www." ++ domain ++ ".com/fiction/" ++ wid) = .ok soup)
    (h : isOkB (extractFor domain env opts h0).1 = true) :
    storyTitles (extractFor domain env opts h0).1 =
      ((selectChapterRows soup).enum.filter (fun p => specKeep opts p.1)).map
        (fun p => titleOfRow p.2) := by
  unfold extractFor at h ⊢
  simp only [hw, hf] at h ⊢
  cases hh : findIn (isTag "head") soup with
  | none => simp [hh, isOkB] at h
  | some hd =>
    simp only [hh] at h ⊢
    cases hb : buildStory env soup (baseOf env hd) with
    | error e => simp [hb, isOkB] at h
    | ok story0 =>
      simp only [hb] at h ⊢
      rw [chapterLoop_eq] at h ⊢
      cases hcs : chaptersOfRows env opts story0.url
          ((selectChapterRows soup).enum.filter (fun p => pyKeep opts p.1)) with
      | error e => simp [hcs, isOkB] at h
      | ok cs =>
        simp only [hcs, storyTitles]
        rw [buildStory_chapters env soup (baseOf env hd) story0 hb]
        rw [List.nil_append,
          chaptersOfRows_titles env opts story0.url _ cs hcs]
        congr 1
        exact List.filter_congr (fun x _ => pyKeep_eq_specKeep opts x.1)

/-- Witness for C3: on the concrete two-chapter environment with
`offset = 1`, the amended selection applies and yields exactly the second
chapter. -/
theorem c3_chapters_are_offset_limit_slice_witness :
    storyTitles (extractFor "royalroad" goodEnv { offset := some 1 } 100).1 =
      ((selectChapterRows landPage).enum.filter
        (fun p => specKeep { offset := some 1 } p.1)).map (fun p => titleOfRow p.2) ∧
    storyTitles (extractFor "royalroad" goodEnv { offset := some 1 } 100).1 = ["Beta"] :=
  ⟨c3_chapters_are_offset_limit_slice "royalroad" goodEnv { offset := some 1 } 100 "123"
      landPage rfl rfl rfl, rfl⟩

/-- Removing a class does not change the classes carried by the node
itself. -/
theorem hasClass_removeCl (c c2 : String) (n : Node) :
    hasClass c (removeCl c2 n) = hasClass c n := by
  cases n <;> rfl

mutual
/-- After `removeCl c`, no strict descendant carries class `c`. -/
theorem removeCl_clean (c : String) : ∀ n : Node, findIn (hasClass c) (removeCl c n) = none
  | .text _ => rfl
  | .elem t cls attrs ch => by
      simp only [removeCl, findIn]
      exact removeClList_clean c ch
theorem removeClList_clean (c : String) :
    ∀ ch : List Node, findInList (hasClass c) (removeClList c ch) = none
  | [] => rfl
  | n :: ns => by
      simp only [removeClList]
      by_cases hn : hasClass c n = true
      · simp only [hn, if_true]
        exact removeClList_clean c ns
      · simp only [hn, Bool.false_eq_true, if_false, findInList, hasClass_removeCl,
          removeCl_clean c n]
        exact removeClList_clean c ns
end

mutual
/-- `removeCl` of any class preserves the absence of class `c`
descendants. -/
theorem removeCl_pres (c c2 : String) :
    ∀ n : Node, findIn (hasClass c) n = none → findIn (hasClass c) (removeCl c2 n) = none
  | .text _, _ => rfl
  | .elem t cls attrs ch, h => by
      simp only [findIn] at h
      simp only [removeCl, findIn]
      exact removeClList_pres c c2 ch h
theorem removeClList_pres (c c2 : String) :
    ∀ ch : List Node, findInList (hasClass c) ch = none →
      findInList (hasClass c) (removeClList c2 ch) = none
  | [], _ => rfl
  | n :: ns, h => by
      simp only [findInList] at h
      by_cases hn : hasClass c n = true
      · simp [hn] at h
      · simp only [hn, Bool.false_eq_true, if_false] at h
        cases hf : findIn (hasClass c) n with
        | some r => simp [hf] at h
        | none =>
          simp only [hf] at h
          simp only [removeClList]
          by_cases hn2 : hasClass c2 n = true
          · simp only [hn2, if_true]
            exact removeClList_pres c c2 ns h
          · simp only [hn2, Bool.false_eq_true, if_false, findInList, hasClass_removeCl, hn,
              removeCl_pres c c2 n hf]
            exact removeClList_pres c c2 ns h
end

/-- The fold of warning steps preserves the absence of class `c`
descendants. -/
theorem warnFold_pres (c : String) :
    ∀ (styles : List Node) (cont r : Node), warnFold styles cont = .ok r →
      findIn (hasClass c) cont = none → findIn (hasClass c) r = none := by
  intro styles
  induction styles with
  | nil =>
    intro cont r h hc
    simp only [warnFold, Except.ok.injEq] at h
    subst h; exact hc
  | cons st rest ih =>
    intro cont r h hc
    simp only [warnFold, warnStep] at h
    cases hs : stringOf st with
    | none => simp [hs] at h
    | some s =>
      simp only [hs] at h
      cases hp : parseRule s with
      | none =>
        simp only [hp] at h
        exact ih cont r h hc
      | some cls =>
        simp only [hp] at h
        exact ih (removeCl cls cont) r h (removeCl_pres c cls cont hc)

/-- Every class captured by some style block of a successful warning fold is
absent from the result. -/
theorem warnFold_removes (c : String) :
    ∀ (styles : List Node) (cont r : Node), warnFold styles cont = .ok r →
      c ∈ styles.filterMap (fun st =>
        match stringOf st with
        | some s => parseRule s
        | none => none) →
      findIn (hasClass c) r = none := by
  intro styles
  induction styles with
  | nil => intro cont r _ hm; simp at hm
  | cons st rest ih =>
    intro cont r h hm
    simp only [warnFold, warnStep] at h
    cases hs : stringOf st with
    | none => simp [hs] at h
    | some s =>
      simp only [hs] at h
      simp only [List.filterMap_cons, hs] at hm
      cases hp : parseRule s with
      | none =>
        simp only [hp] at h hm
        exact ih cont r h hm
      | some cls =>
        simp only [hp] at h
        simp only [hp, List.mem_cons] at hm
        cases hm with
        | inl hceq =>
          subst hceq
          exact warnFold_pres c rest (removeCl c cont) r h (removeCl_clean c cont)
        | inr hmem => exact ih (removeCl cls cont) r h hmem

/-- Content block with a class-`foo` element, used against the style pages
below. -/
def contentFoo : Node :=
  .elem "div" ["chapter-content"] [] [.elem "div" ["foo"] [] [.text "stolen"], .text "real"]

/-- Page whose head declares the spec's example rule `.foo{display:none}` —
with no trailing semicolon. -/
def pageNoSemi : Node :=
  .elem "html" [] [] [
    .elem "head" [] [] [.elem "style" [] [] [.text ".foo\x7bdisplay:none\x7d"]],
    contentFoo ]

/-- Same page with the declaration written `display:none;`. -/
def pageSemi : Node :=
  .elem "html" [] [] [
    .elem "head" [] [] [.elem "style" [] [] [.text ".foo\x7bdisplay:none;\x7d"]],
    contentFoo ]

/-- C4 counterexample: the claim says a head style rule `.foo{display:none}`
(the spec's own example) makes every class-`foo` element absent from the
cleaned content, and that no matching rule is a no-op.  The source regex
(line 118) demands a semicolon after `none`, so the example rule does not
match: the cleaner returns the content unchanged and the class-`foo`
element is still present. -/
theorem c4_example_rule_without_semicolon_is_noop :
    cleanWarnings contentFoo pageNoSemi = .ok contentFoo ∧
    anyIn (hasClass "foo") contentFoo = true :=
  ⟨rfl, rfl⟩

/-- C4 amended: for every page and content block, every class captured by a
head style rule of the form `.<class>{...display:none;...}` — note the
semicolon the source regex requires — is absent from the cleaned content
whenever the cleaner returns; multiple matching rules are all applied, since
every captured class is removed. -/
theorem c4_display_none_classes_removed (content page : Node) (c : String) (r : Node)
    (hm : c ∈ matchedClasses page) (h : cleanWarnings content page = .ok r) :
    anyIn (hasClass c) r = false := by
  unfold matchedClasses at hm
  unfold cleanWarnings at h
  have hn := warnFold_removes c (stylesOf page) content r h hm
  simp [anyIn, hn]

/-- Witness for C4: on the semicolon page the `foo` element is removed. -/
theorem c4_display_none_classes_removed_witness :
    cleanWarnings contentFoo pageSemi =
      .ok (Node.elem "div" ["chapter-content"] [] [.text "real"]) ∧
    anyIn (hasClass "foo") (Node.elem "div" ["chapter-content"] [] [.text "real"]) = false :=
  ⟨rfl, c4_display_none_classes_removed contentFoo pageSemi "foo"
    (Node.elem "div" ["chapter-content"] [] [.text "real"]) (by decide) rfl⟩

/-- A plain content block. -/
def contentPlain : Node :=
  .elem "div" ["chapter-content"] [] [.text "x"]

/-- A page holding an empty style tag: `style.string` is `None`. -/
def pageEmptyStyle : Node :=
  .elem "html" [] [] [.elem "style" [] [] [], contentPlain]

/-- C9 counterexample: the claim says the hidden-warning remover is a no-op
on every page with no matching style rule.  A page carrying an empty
`<style>` tag has no matching rule, yet `style.string` is `None` and
`re.match` on `None` raises `TypeError` (line 118): the remover raises
instead of returning the content unchanged. -/
theorem c9_stringless_style_raises :
    cleanWarnings contentPlain pageEmptyStyle = .error () ∧
    matchedClasses pageEmptyStyle = [] :=
  ⟨rfl, rfl⟩

/-- A style block that is harmless for the remover: it holds a string and
the string does not match the `display:none` pattern. -/
def styleBenign (st : Node) : Bool :=
  match stringOf st with
  | some s => (parseRule s).isNone
  | none => false

/-- A warning fold over harmless style blocks returns its input. -/
theorem warnFold_benign :
    ∀ (styles : List Node) (cont : Node), styles.all styleBenign = true →
      warnFold styles cont = .ok cont := by
  intro styles
  induction styles with
  | nil => intro cont _; rfl
  | cons st rest ih =>
    intro cont h
    simp only [List.all_cons, Bool.and_eq_true] at h
    obtain ⟨h1, h2⟩ := h
    unfold styleBenign at h1
    simp only [warnFold, warnStep]
    cases hs : stringOf st with
    | none => simp [hs] at h1
    | some s =>
      simp only [hs] at h1 ⊢
      cases hp : parseRule s with
      | some cls => simp [hp] at h1
      | none => exact ih cont h2

/-- C9 amended: the hidden-warning remover leaves the content block
unchanged on every page whose style blocks each hold a string and none of
them matches the single-class `display:none;` pattern; a string-less style
block instead raises. -/
theorem c9_remover_noop_without_matching_rules (content page : Node)
    (h : (stylesOf page).all styleBenign = true) :
    cleanWarnings content page = .ok content :=
  warnFold_benign (stylesOf page) content h

/-- A page with one harmless style rule. -/
def pageBenign : Node :=
  .elem "html" [] [] [.elem "style" [] [] [.text ".foo\x7bcolor:red\x7d"]]

/-- Witness for C9: the remover is a no-op on the harmless page. -/
theorem c9_remover_noop_without_matching_rules_witness :
    (stylesOf pageBenign).all styleBenign = true ∧
    cleanWarnings contentPlain pageBenign = .ok contentPlain :=
  ⟨rfl, c9_remover_noop_without_matching_rules contentPlain pageBenign rfl⟩

/-- Stripping a literal prefix off itself-plus-remainder. -/
theorem stripP_append (p : List Char) : ∀ rest, stripP p (p ++ rest) = some rest := by
  induction p with
  | nil => intro rest; rfl
  | cons c ps ih => intro rest; simp [stripP, ih]

/-- A successful prefix strip decomposes its input. -/
theorem stripP_sound (p : List Char) : ∀ cs r, stripP p cs = some r → cs = p ++ r := by
  induction p with
  | nil =>
    intro cs r h
    simp only [stripP, Option.some.injEq] at h
    simp [h]
  | cons c ps ih =>
    intro cs r h
    cases cs with
    | nil => simp [stripP] at h
    | cons d cs2 =>
      simp only [stripP] at h
      by_cases hd : d = c
      · subst hd
        simp only [if_pos rfl] at h
        simp [ih cs2 r h]
      · simp [hd] at h

/-- Scheme of a Bool: the two alternatives of `https?://`. -/
def schStr (b : Bool) : List Char :=
  if b then "https://".data else "http://".data

/-- Optional `www.` of a Bool. -/
def wwwStr (b : Bool) : List Char :=
  if b then "www.".data else []

/-- `schemeSplit` on an `https://`-led list. -/
theorem schemeSplit_https (rest : List Char) :
    schemeSplit ("https://".data ++ rest) = some ("https://".data, rest) := by
  unfold schemeSplit
  rw [stripP_append]

/-- `schemeSplit` on an `http://`-led list: the greedy `https://` branch
fails on the fifth character. -/
theorem schemeSplit_http (rest : List Char) :
    schemeSplit ("http://".data ++ rest) = some ("http://".data, rest) := by
  unfold schemeSplit
  rw [show stripP "https://".data ("http://".data ++ rest) = none from rfl, stripP_append]

/-- A successful scheme split decomposes its input into one of the two
schemes and the remainder. -/
theorem schemeSplit_sound (cs sch r : List Char) (h : schemeSplit cs = some (sch, r)) :
    cs = sch ++ r ∧ (sch = "https://".data ∨ sch = "http://".data) := by
  unfold schemeSplit at h
  cases h1 : stripP "https://".data cs with
  | some rest =>
    simp only [h1, Option.some.injEq, Prod.mk.injEq] at h
    obtain ⟨hs2, hr2⟩ := h
    subst hs2; subst hr2
    exact ⟨stripP_sound _ cs _ h1, Or.inl rfl⟩
  | none =>
    simp only [h1] at h
    cases h2 : stripP "http://".data cs with
    | some rest =>
      simp only [h2, Option.some.injEq, Prod.mk.injEq] at h
      obtain ⟨hs2, hr2⟩ := h
      subst hs2; subst hr2
      exact ⟨stripP_sound _ cs _ h2, Or.inr rfl⟩
    | none => simp [h2] at h

/-- A www split decomposes its input. -/
theorem wwwSplit_sound (cs w r : List Char) (h : wwwSplit cs = (w, r)) :
    cs = w ++ r ∧ (w = "www.".data ∨ w = []) := by
  unfold wwwSplit at h
  cases h1 : stripP "www.".data cs with
  | some rest =>
    simp only [h1, Prod.mk.injEq] at h
    obtain ⟨hs2, hr2⟩ := h
    subst hs2; subst hr2
    exact ⟨stripP_sound _ cs _ h1, Or.inl rfl⟩
  | none =>
    simp only [h1, Prod.mk.injEq] at h
    obtain ⟨hs2, hr2⟩ := h
    subst hs2; subst hr2
    simp

/-- `takeWhile` passes over a block that satisfies the predicate. -/
theorem takeWhile_all_append (p : Char → Bool) :
    ∀ (l m : List Char), (∀ c ∈ l, p c = true) →
      (l ++ m).takeWhile p = l ++ m.takeWhile p := by
  intro l
  induction l with
  | nil => intro m _; rfl
  | cons c l2 ih =>
    intro m h
    have hc : p c = true := h c (List.mem_cons_self c l2)
    simp only [List.cons_append, List.takeWhile_cons, hc, if_true]
    rw [ih m (fun d hd => h d (List.mem_cons_of_mem c hd))]

/-- Dropping as many elements as the matched prefix leaves the unmatched
suffix. -/
theorem drop_takeWhile_length (p : Char → Bool) :
    ∀ l : List Char, l.drop (l.takeWhile p).length = l.dropWhile p := by
  intro l
  induction l with
  | nil => rfl
  | cons c t ih =>
    by_cases hc : p c = true
    · simp [List.takeWhile_cons, List.dropWhile_cons, hc, ih]
    · simp [List.takeWhile_cons, List.dropWhile_cons, hc]

/-- `wwwSplit` on a `www.`-led list. -/
theorem wwwSplit_www (rest : List Char) :
    wwwSplit ("www.".data ++ rest) = ("www.".data, rest) := by
  unfold wwwSplit
  rw [stripP_append]

/-- The anchored fiction regex accepts every URL of the canonical shape:
either scheme, optional `www.`, the domain path, a non-empty digit id, and
a remainder that is empty or starts with a slash. -/
theorem matchFiction_pos (b w : Bool) (id rest : List Char) (hid : id ≠ [])
    (hdig : ∀ c ∈ id, c.isDigit = true)
    (hrest : rest = [] ∨ ∃ r2, rest = '/' :: r2) :
    matchFiction "royalroad"
        (schStr b ++ (wwwStr w ++ (fictionPath "royalroad" ++ (id ++ rest)))) =
      some (schStr b, wwwStr w, id, rest) := by
  have htk : (id ++ rest).takeWhile Char.isDigit = id := by
    rw [takeWhile_all_append Char.isDigit id rest hdig]
    cases hrest with
    | inl h => subst h; simp
    | inr h =>
      obtain ⟨r2, h⟩ := h
      subst h
      simp [List.takeWhile_cons]
  have hie : id.isEmpty = false := by
    cases id with
    | nil => exact absurd rfl hid
    | cons c t => rfl
  have hsch : schemeSplit (schStr b ++ (wwwStr w ++ (fictionPath "royalroad" ++ (id ++ rest)))) =
      some (schStr b, wwwStr w ++ (fictionPath "royalroad" ++ (id ++ rest))) := by
    cases b with
    | true => exact schemeSplit_https _
    | false => exact schemeSplit_http _
  have hwww : wwwSplit (wwwStr w ++ (fictionPath "royalroad" ++ (id ++ rest))) =
      (wwwStr w, fictionPath "royalroad" ++ (id ++ rest)) := by
    cases w with
    | true => exact wwwSplit_www _
    | false =>
      unfold wwwSplit
      rw [show stripP "www.".data (wwwStr false ++ (fictionPath "royalroad" ++ (id ++ rest))) =
        none from rfl]
      rfl
  simp only [matchFiction, hsch, hwww, stripP_append, htk, hie, Bool.false_eq_true, if_false,
    List.drop_left]

/-- Inversion of a successful anchored match: the input decomposes into one
of the two schemes, an optional `www.`, the domain path, a non-empty digit
group and the remainder. -/
theorem matchFiction_sound (domain : String) (cs sch w d rest : List Char)
    (h : matchFiction domain cs = some (sch, w, d, rest)) :
    cs = sch ++ (w ++ (fictionPath domain ++ (d ++ rest))) ∧
    (sch = "https://".data ∨ sch = "http://".data) ∧
    (w = "www.".data ∨ w = []) ∧ d ≠ [] ∧ (∀ ch ∈ d, ch.isDigit = true) := by
  unfold matchFiction at h
  cases hs : schemeSplit cs with
  | none => simp [hs] at h
  | some p =>
    obtain ⟨sch0, r1⟩ := p
    simp only [hs] at h
    cases hww : wwwSplit r1 with
    | mk w0 r2 =>
      simp only [hww] at h
      cases hf : stripP (fictionPath domain) r2 with
      | none => simp [hf] at h
      | some r3 =>
        simp only [hf] at h
        by_cases hie : (r3.takeWhile Char.isDigit).isEmpty = true
        · simp [hie] at h
        · simp only [hie, Bool.false_eq_true, if_false, Option.some.injEq, Prod.mk.injEq] at h
          obtain ⟨hsch2, hw2, hd2, hrest2⟩ := h
          subst hsch2; subst hw2; subst hd2; subst hrest2
          obtain ⟨hcs1, hschOpt⟩ := schemeSplit_sound cs _ r1 hs
          obtain ⟨hcs2, hwOpt⟩ := wwwSplit_sound r1 _ r2 hww
          have hcs3 := stripP_sound (fictionPath domain) r2 r3 hf
          refine ⟨?_, hschOpt, hwOpt, ?_, ?_⟩
          · rw [hcs1, hcs2, hcs3, drop_takeWhile_length, List.takeWhile_append_dropWhile]
          · intro hnil
            rw [hnil] at hie
            exact hie rfl
          · intro ch hch
            exact List.mem_takeWhile_imp hch

/-- The substring `<domain>.com/fiction/<digit>` occurs somewhere in the
list: the weakest property a URL must have for the `matches` regex to have
any chance (the claim's "/fiction/<digits> pattern for this domain"). -/
def hasFictionRef (domain : String) : List Char → Bool
  | [] => false
  | c :: t =>
    (match stripP (fictionPath domain) (c :: t) with
     | some r =>
       match r with
       | d2 :: _ => d2.isDigit
       | [] => false
     | none => false) || hasFictionRef domain t

/-- The fiction path of any domain is a non-empty character list. -/
theorem fictionPath_ne_nil (domain : String) : fictionPath domain ≠ [] := by
  unfold fictionPath
  cases hd : domain.data with
  | nil => simp
  | cons c t => simp

/-- If the fiction path strips off the front and a digit follows, the
reference is present. -/
theorem hasFictionRef_here (domain : String) (cs tl : List Char) (c2 : Char)
    (hs : stripP (fictionPath domain) cs = some (c2 :: tl)) (hd : c2.isDigit = true) :
    hasFictionRef domain cs = true := by
  cases cs with
  | nil =>
    cases hfp : fictionPath domain with
    | nil => exact absurd hfp (fictionPath_ne_nil domain)
    | cons a b => rw [hfp] at hs; simp [stripP] at hs
  | cons c t =>
    unfold hasFictionRef
    rw [hs]
    simp [hd]

/-- The reference survives prepending arbitrary characters. -/
theorem hasFictionRef_append (domain : String) :
    ∀ (pre cs : List Char), hasFictionRef domain cs = true →
      hasFictionRef domain (pre ++ cs) = true := by
  intro pre
  induction pre with
  | nil => intro cs h; exact h
  | cons p pre2 ih =>
    intro cs h
    show hasFictionRef domain (p :: (pre2 ++ cs)) = true
    unfold hasFictionRef
    rw [ih cs h]
    simp

/-- String-level scheme of a Bool. -/
def schS (b : Bool) : String :=
  if b then "https://" else "http://"

/-- String-level optional `www.` of a Bool. -/
def wwwS (b : Bool) : String :=
  if b then "www." else ""

/-- The two string-level helpers project to the list-level ones. -/
theorem schS_data (b : Bool) : (schS b).data = schStr b := by
  cases b <;> rfl

/-- The `www.` helper projects likewise. -/
theorem wwwS_data (b : Bool) : (wwwS b).data = wwwStr b := by
  cases b <;> rfl

/-- `matchesFor` at the canonical decomposition: group 1 plus the trailing
slash. -/
theorem matchesFor_pos_str (b w : Bool) (id tail : String) (hid : id.data ≠ [])
    (hdig : ∀ c ∈ id.data, c.isDigit = true)
    (htail : tail.data = [] ∨ ∃ r2, tail.data = '/' :: r2) :
    matchesFor "royalroad"
        ⟨schStr b ++ (wwwStr w ++ (fictionPath "royalroad" ++ (id.data ++ tail.data)))⟩ =
      some ⟨schStr b ++ (wwwStr w ++ (fictionPath "royalroad" ++ (id.data ++ ['/'])))⟩ := by
  unfold matchesFor
  rw [show (String.mk (schStr b ++ (wwwStr w ++ (fictionPath "royalroad" ++ (id.data ++ tail.data))))).data =
    schStr b ++ (wwwStr w ++ (fictionPath "royalroad" ++ (id.data ++ tail.data))) from rfl]
  rw [matchFiction_pos b w id.data tail.data hid hdig htail]
  exact congrArg (fun l => some (String.mk l)) (by simp [List.append_assoc])

/-- C5: `matches` canonicalizes.  Positive direction: for every URL of the
form `http(s)://[www.]royalroad.com/fiction/<digits>` optionally followed by
a slash and a slug, `matches` returns the same scheme and host with the
trailing slash and the slug discarded.  Negative direction: for every URL
not containing the `royalroad.com/fiction/<digit>` pattern anywhere,
`matches` returns nothing. -/
theorem c5_matches_canonical_urls :
    (∀ (scheme www id tail : String),
      (scheme = "https://" ∨ scheme = "http://") →
      (www = "www." ∨ www = "") →
      id.data ≠ [] → (∀ c ∈ id.data, c.isDigit = true) →
      (tail = "" ∨ ∃ slug, tail = "/" ++ slug) →
      RoyalRoad.matches (scheme ++ www ++ "royalroad.com/fiction/" ++ id ++ tail) =
        some (scheme ++ www ++ "royalroad.com/fiction/" ++ id ++ "/")) ∧
    (∀ url : String, hasFictionRef RoyalRoad.domain url.data = false →
      RoyalRoad.matches url = none) := by
  constructor
  · intro scheme www id tail hsch hwww hid hdig htail
    have htail2 : tail.data = [] ∨ ∃ r2, tail.data = '/' :: r2 := by
      rcases htail with rfl | ⟨slug, rfl⟩
      · exact Or.inl rfl
      · right
        refine ⟨slug.data, ?_⟩
        rw [String.data_append]
        rfl
    rcases hsch with rfl | rfl <;> rcases hwww with rfl | rfl
    · exact matchesFor_pos_str true true id tail hid hdig htail2
    · exact matchesFor_pos_str true false id tail hid hdig htail2
    · exact matchesFor_pos_str false true id tail hid hdig htail2
    · exact matchesFor_pos_str false false id tail hid hdig htail2
  · intro url h
    simp only [RoyalRoad.domain] at h
    unfold RoyalRoad.matches matchesFor RoyalRoad.domain
    cases hm : matchFiction "royalroad" url.data with
    | none => rfl
    | some q =>
      obtain ⟨sch, w, d, rest⟩ := q
      obtain ⟨hcs, _, _, hd, hdig⟩ := matchFiction_sound "royalroad" url.data sch w d rest hm
      cases d with
      | nil => exact absurd rfl hd
      | cons c2 d2 =>
        have h1 : hasFictionRef "royalroad"
            (fictionPath "royalroad" ++ (c2 :: d2 ++ rest)) = true := by
          apply hasFictionRef_here "royalroad" _ (d2 ++ rest) c2
          · rw [stripP_append]; rfl
          · exact hdig c2 (by simp)
        have h2 := hasFictionRef_append "royalroad" w _ h1
        have h3 := hasFictionRef_append "royalroad" sch _ h2
        rw [← hcs] at h3
        rw [h3] at h
        exact Bool.noConfusion h

/-- Witness for C5: a concrete slugged URL canonicalizes, and a URL without
the fiction pattern yields nothing. -/
theorem c5_matches_canonical_urls_witness :
    RoyalRoad.matches "https://www.royalroad.com/fiction/6752/lament-of-the-fallen" =
      some "https://www.royalroad.com/fiction/6752/" ∧
    RoyalRoad.matches "https://example.com/path" = none :=
  ⟨c5_matches_canonical_urls.1 "https://" "www." "6752" "/lament-of-the-fallen"
      (Or.inl rfl) (Or.inl rfl) (by decide) (by decide)
      (Or.inr ⟨"lament-of-the-fallen", rfl⟩),
    c5_matches_canonical_urls.2 "https://example.com/path" (by decide)⟩

/-- C10: the canonical URL produced by `matches` is a fixed point of
`matches`: whenever `matches u` returns a canonical URL `c`, `matches c`
returns `c` again. -/
theorem c10_matches_fixed_point (u c : String) (h : RoyalRoad.matches u = some c) :
    RoyalRoad.matches c = some c := by
  unfold RoyalRoad.matches matchesFor RoyalRoad.domain at h ⊢
  cases hm : matchFiction "royalroad" u.data with
  | none => simp [hm] at h
  | some q =>
    obtain ⟨sch, w, d, rest⟩ := q
    simp only [hm, Option.some.injEq] at h
    obtain ⟨_, hschOpt, hwOpt, hd, hdig⟩ := matchFiction_sound "royalroad" u.data sch w d rest hm
    subst h
    have hdat : (String.mk (sch ++ w ++ fictionPath "royalroad" ++ d ++ ['/'])).data =
        sch ++ (w ++ (fictionPath "royalroad" ++ (d ++ ['/']))) := by
      show sch ++ w ++ fictionPath "royalroad" ++ d ++ ['/'] =
        sch ++ (w ++ (fictionPath "royalroad" ++ (d ++ ['/'])))
      simp [List.append_assoc]
    rw [hdat]
    have hpos : matchFiction "royalroad"
        (sch ++ (w ++ (fictionPath "royalroad" ++ (d ++ ['/'])))) = some (sch, w, d, ['/']) := by
      rcases hschOpt with rfl | rfl <;> rcases hwOpt with rfl | rfl
      · exact matchFiction_pos true true d ['/'] hd hdig (Or.inr ⟨[], rfl⟩)
      · exact matchFiction_pos true false d ['/'] hd hdig (Or.inr ⟨[], rfl⟩)
      · exact matchFiction_pos false true d ['/'] hd hdig (Or.inr ⟨[], rfl⟩)
      · exact matchFiction_pos false false d ['/'] hd hdig (Or.inr ⟨[], rfl⟩)
    rw [hpos]

/-- Witness for C10: the canonical form of a concrete URL maps to itself. -/
theorem c10_matches_fixed_point_witness :
    RoyalRoad.matches "http://royalroad.com/fiction/123/" =
      some "http://royalroad.com/fiction/123/" :=
  c10_matches_fixed_point "http://royalroad.com/fiction/123"
    "http://royalroad.com/fiction/123/" (by decide)

mutual
/-- A node that neither carries class `spoiler` nor has a class-`spoiler`
descendant passes through the spoiler normalizer unchanged. -/
theorem csNode_noSpoiler : ∀ n : Node, findIn (hasClass "spoiler") n = none → csNode n = .ok n
  | .text _, _ => rfl
  | .elem t cls a ch, h2 => by
      simp only [findIn] at h2
      simp only [csNode, csList_noSpoiler ch h2]
theorem csList_noSpoiler :
    ∀ ch : List Node, findInList (hasClass "spoiler") ch = none → csList ch = .ok ch
  | [], _ => rfl
  | n :: ns, h => by
      simp only [findInList] at h
      by_cases hn : hasClass "spoiler" n = true
      · simp [hn] at h
      · simp only [hn, Bool.false_eq_true, if_false] at h
        cases hf : findIn (hasClass "spoiler") n with
        | some r => simp [hf] at h
        | none =>
          simp only [hf] at h
          simp only [csList, hn, Bool.false_eq_true, if_false,
            csNode_noSpoiler n hf, csList_noSpoiler ns h]
end

/-- The spoiler pass distributes over a spoiler-free prefix. -/
theorem csList_append_noSpoiler :
    ∀ (pre rest : List Node), findInList (hasClass "spoiler") pre = none →
      csList (pre ++ rest) =
        match csList rest with
        | .error e => .error e
        | .ok rs => .ok (pre ++ rs) := by
  intro pre
  induction pre with
  | nil =>
    intro rest _
    cases hr : csList rest with
    | error e => simp [hr]
    | ok rs => simp [hr]
  | cons n pre2 ih =>
    intro rest h
    simp only [findInList] at h
    by_cases hn : hasClass "spoiler" n = true
    · simp [hn] at h
    · simp only [hn, Bool.false_eq_true, if_false] at h
      cases hf : findIn (hasClass "spoiler") n with
      | some r => simp [hf] at h
      | none =>
        simp only [hf] at h
        simp only [List.cons_append, csList, hn, Bool.false_eq_true, if_false,
          csNode_noSpoiler n hf, List.append_eq]
        rw [ih rest h]
        cases hr : csList rest with
        | error e => simp [hr]
        | ok rs => simp [hr]

/-- Text nodes never match an element predicate that is false on strings. -/
theorem findInList_map_text (p : Node → Bool) (hp : ∀ s, p (.text s) = false) :
    ∀ ss : List String, findInList p (ss.map Node.text) = none := by
  intro ss
  induction ss with
  | nil => rfl
  | cons s rest ih =>
    simp only [List.map_cons, findInList, hp s, Bool.false_eq_true, if_false, findIn]
    exact ih

/-- The descendant strings of a pure text list are the strings themselves. -/
theorem texts_map_text : ∀ ss : List String, textsList (ss.map Node.text) = ss := by
  intro ss
  induction ss with
  | nil => rfl
  | cons s rest ih => simp only [List.map_cons, textsList, texts, ih]; rfl

/-- Concatenating empty strings yields the empty string. -/
theorem joinStr_all_empty : ∀ l : List String, (∀ s ∈ l, s = "") → joinStr l = "" := by
  intro l
  induction l with
  | nil => intro _; rfl
  | cons s rest ih =>
    intro h
    have hs : s = "" := h s (List.mem_cons_self s rest)
    subst hs
    simp only [joinStr]
    rw [ih (fun x hx => h x (List.mem_cons_of_mem _ hx))]
    rfl

/-- A small-text label block holding the given strings. -/
def lblDivOf (ss : List String) : Node :=
  .elem "div" ["smalltext"] [] (ss.map Node.text)

/-- A hidden spoiler-inner block holding the given text. -/
def innerDivOf (t : String) : Node :=
  .elem "div" ["spoiler-inner"] [("style", "display:none")] [.text t]

/-- A spoiler-content block wrapping the inner block. -/
def contentDivOf (t : String) : Node :=
  .elem "div" ["spoilerContent"] [] [innerDivOf t]

/-- A well-formed spoiler whose label block holds the given strings. -/
def spoilerEmptyLbl (ss : List String) (t : String) : Node :=
  .elem "div" ["spoiler"] [] [lblDivOf ss, contentDivOf t]

/-- A spoiler with no small-text label block at all. -/
def spoilerNoLabel : Node :=
  .elem "div" ["spoiler"] [] [contentDivOf "s"]

/-- C6 counterexample: the claim says the normalizer does not fail when the
small-text label block is absent.  The source reads
`spoiler.find('div', class_='smalltext').get_text(strip=True)` (line 126):
with the block absent, `find` returns `None` and `.get_text` raises
`AttributeError`. -/
theorem c6_missing_label_block_raises :
    clean_spoilers (.elem "div" ["chapter-content"] [] [spoilerNoLabel]) 1 = .error () :=
  rfl

/-- C6 amended: when the label block is present but its text is empty after
trimming, the normalizer does not fail and uses a single space as the
label, producing the header `[SPOILER -  ]`; a spoiler with no label block
at all instead raises. -/
theorem c6_empty_label_falls_back_to_space (ss : List String) (t : String)
    (h : ∀ s ∈ ss, pyStrip s = "") :
    clean_spoilers (.elem "div" [] [] [spoilerEmptyLbl ss t]) 7 =
      .ok (.elem "div" [] [] [
        .elem "strong" ["spoiler-header"] [] [.text "[SPOILER -  ]"],
        .elem "div" ["spoiler-inner"] [("style", "")] [.text t] ]) := by
  have hlbl : getTextStrip (lblDivOf ss) = "" := by
    unfold getTextStrip lblDivOf
    simp only [texts]
    rw [texts_map_text]
    refine joinStr_all_empty _ ?_
    intro x hx
    obtain ⟨s, hs, rfl⟩ := List.mem_map.mp hx
    exact h s hs
  have hfig : findIn (hasClass "spoiler") (spoilerEmptyLbl ss t) = none := by
    show findInList (hasClass "spoiler") [lblDivOf ss, contentDivOf t] = none
    simp only [findInList,
      show hasClass "spoiler" (lblDivOf ss) = false from rfl,
      Bool.false_eq_true, if_false,
      show findIn (hasClass "spoiler") (lblDivOf ss) =
        findInList (hasClass "spoiler") (ss.map Node.text) from rfl,
      findInList_map_text (hasClass "spoiler") (fun s => rfl) ss,
      show hasClass "spoiler" (contentDivOf t) = false from rfl,
      show findIn (hasClass "spoiler") (contentDivOf t) = none from rfl]
  have hfc : findIn (isDivClass "spoilerContent") (spoilerEmptyLbl ss t) =
      some (contentDivOf t) := by
    show findInList (isDivClass "spoilerContent") [lblDivOf ss, contentDivOf t] =
      some (contentDivOf t)
    simp only [findInList,
      show isDivClass "spoilerContent" (lblDivOf ss) = false from rfl,
      Bool.false_eq_true, if_false,
      show findIn (isDivClass "spoilerContent") (lblDivOf ss) =
        findInList (isDivClass "spoilerContent") (ss.map Node.text) from rfl,
      findInList_map_text (isDivClass "spoilerContent") (fun s => rfl) ss,
      show isDivClass "spoilerContent" (contentDivOf t) = true from rfl, if_true]
  have hps : processSpoiler (spoilerEmptyLbl ss t) =
      .ok (some (Node.elem "strong" ["spoiler-header"] [] [.text "[SPOILER -  ]"],
        Node.elem "div" ["spoiler-inner"] [("style", "")] [.text t])) := by
    unfold processSpoiler
    rw [show findIn (isDivClass "smalltext") (spoilerEmptyLbl ss t) = some (lblDivOf ss)
      from rfl]
    simp only [hlbl, hfc]
    rw [show findIn (isDivClass "spoiler-inner") (contentDivOf t) = some (innerDivOf t)
      from rfl]
    rfl
  have hstep : csList [spoilerEmptyLbl ss t] =
      .ok [Node.elem "strong" ["spoiler-header"] [] [.text "[SPOILER -  ]"],
           Node.elem "div" ["spoiler-inner"] [("style", "")] [.text t]] := by
    simp only [csList, show hasClass "spoiler" (spoilerEmptyLbl ss t) = true from rfl, if_true,
      csNode_noSpoiler _ hfig, hps]
  unfold clean_spoilers
  simp only [csNode, hstep]

/-- Witness for C6: a whitespace-only label produces the single-space
header. -/
theorem c6_empty_label_falls_back_to_space_witness :
    clean_spoilers (.elem "div" [] [] [spoilerEmptyLbl [" "] "x"]) 7 =
      .ok (.elem "div" [] [] [
        .elem "strong" ["spoiler-header"] [] [.text "[SPOILER -  ]"],
        .elem "div" ["spoiler-inner"] [("style", "")] [.text "x"] ]) :=
  c6_empty_label_falls_back_to_space [" "] "x" (by decide)

/-- A one-string small-text label block. -/
def lblOne (lbl : String) : Node :=
  .elem "div" ["smalltext"] [] [.text lbl]

/-- A spoiler with a label block and arbitrary further children. -/
def spoilerMal (lbl : String) (extra : List Node) : Node :=
  .elem "div" ["spoiler"] [] (lblOne lbl :: extra)

/-- C7 counterexample: the claim says a spoiler whose spoiler-content block
is missing is left untouched with no error raised.  A spoiler with no
small-text block either (its content block being missing too) makes the
label lookup raise `AttributeError` first (line 126). -/
theorem c7_no_label_malformed_spoiler_raises :
    clean_spoilers (.elem "div" [] [] [.elem "div" ["spoiler"] [] [.text "hidden"]]) 2 =
      .error () :=
  rfl

/-- C7 amended: a spoiler whose nested spoiler-content block is missing, or
whose first spoiler-content block lacks a spoiler-inner block, is left
completely unchanged and raises no error, provided its small-text label
block is present (otherwise the label lookup raises); the surrounding tree
is unchanged provided it holds no other spoiler-classed element (other
spoilers are processed independently). -/
theorem c7_malformed_spoiler_untouched (lbl : String) (extra pre post : List Node)
    (hmal : (match findIn (isDivClass "spoilerContent") (spoilerMal lbl extra) with
             | none => true
             | some sc => (findIn (isDivClass "spoiler-inner") sc).isNone) = true)
    (hpre : findInList (hasClass "spoiler") pre = none)
    (hpost : findInList (hasClass "spoiler") post = none)
    (hextra : findInList (hasClass "spoiler") extra = none) :
    clean_spoilers (.elem "div" [] [] (pre ++ spoilerMal lbl extra :: post)) 3 =
      .ok (.elem "div" [] [] (pre ++ spoilerMal lbl extra :: post)) := by
  have hfid : findIn (hasClass "spoiler") (spoilerMal lbl extra) = none := by
    show findInList (hasClass "spoiler") (lblOne lbl :: extra) = none
    simp only [findInList,
      show hasClass "spoiler" (lblOne lbl) = false from rfl,
      Bool.false_eq_true, if_false,
      show findIn (hasClass "spoiler") (lblOne lbl) = none from rfl,
      hextra]
  have hid : csNode (spoilerMal lbl extra) = .ok (spoilerMal lbl extra) :=
    csNode_noSpoiler _ hfid
  have hps : processSpoiler (spoilerMal lbl extra) = .ok none := by
    unfold processSpoiler
    rw [show findIn (isDivClass "smalltext") (spoilerMal lbl extra) = some (lblOne lbl)
      from rfl]
    cases hfc : findIn (isDivClass "spoilerContent") (spoilerMal lbl extra) with
    | none => simp only [hfc]
    | some sc =>
      rw [hfc] at hmal
      simp only [Option.isNone_iff_eq_none] at hmal
      simp only [hfc, hmal]
  have hstep : csList (spoilerMal lbl extra :: post) = .ok (spoilerMal lbl extra :: post) := by
    simp only [csList, show hasClass "spoiler" (spoilerMal lbl extra) = true from rfl, if_true,
      hid, hps, csList_noSpoiler post hpost]
  unfold clean_spoilers
  simp only [csNode]
  rw [csList_append_noSpoiler pre _ hpre, hstep]

/-- Witness for C7: a labelled spoiler with no content block, followed by a
text sibling, passes through unchanged. -/
theorem c7_malformed_spoiler_untouched_witness :
    clean_spoilers (.elem "div" [] [] [spoilerMal "L" [], .text "after"]) 3 =
      .ok (.elem "div" [] [] [spoilerMal "L" [], .text "after"]) :=
  c7_malformed_spoiler_untouched "L" [] [] [.text "after"] rfl rfl rfl rfl

/-- C8: on every chapter page with exactly two author-note blocks, the
content string returned by the chapter parser is the serialization of the
first note, then the `<hr/>` marker, then the cleaned chapter content
string, then the `<hr/>` marker, then the serialization of the second note
(lines 101-102). -/
theorem c8_two_author_notes_merge (env : Env) (opts : Options) (url : String) (cid : Nat)
    (page n1 n2 : Node) (s : String) (ts : Int)
    (hf : env.fetch url = .ok page)
    (hn : findAllIn (isDivClass "author-note-portlet") page = [n1, n2])
    (hc : chapterParse env opts url cid = .ok (s, ts)) :
    ∃ cs, cleanedContentStr env page cid = .ok cs ∧
      s = serialize n1 ++ "<hr/>" ++ cs ++ "<hr/>" ++ serialize n2 := by
  unfold chapterParse at hc
  simp only [hf] at hc
  cases hcs : cleanedContentStr env page cid with
  | error e => simp [hcs] at hc
  | ok cs =>
    simp only [hcs] at hc
    unfold notesMerge at hc
    rw [hn] at hc
    simp only [] at hc
    cases ht : timestampOf page with
    | error e => simp [ht] at hc
    | ok ts2 =>
      simp only [ht, Except.ok.injEq, Prod.mk.injEq] at hc
      exact ⟨cs, rfl, hc.1.symm⟩

/-- A chapter page holding exactly two author-note blocks around the
content. -/
def pageTwoNotes : Node :=
  .elem "html" [] [] [
    .elem "div" ["author-note-portlet"] [] [.text "N1"],
    .elem "div" ["chapter-content"] [] [.text "Body"],
    .elem "div" ["author-note-portlet"] [] [.text "N2"],
    .elem "div" ["profile-info"] [] [.elem "time" [] [("unixtime", "5")] []] ]

/-- Environment serving the two-note page. -/
def envC8 : Env :=
  { url := "u", fetch := fun _ => .ok pageTwoNotes, baseClean := id, footnotes := [] }

/-- Witness for C8: the concrete two-note page produces
`note1 <hr/> content <hr/> note2`. -/
theorem c8_two_author_notes_merge_witness :
    ∃ cs, cleanedContentStr envC8 pageTwoNotes 1 = .ok cs ∧
      ("<div class=\"author-note-portlet\">N1</div><hr/><div class=\"chapter-content\">Body</div><hr/><div class=\"author-note-portlet\">N2</div>" : String) =
        serialize (Node.elem "div" ["author-note-portlet"] [] [.text "N1"]) ++ "<hr/>" ++ cs ++
          "<hr/>" ++ serialize (Node.elem "div" ["author-note-portlet"] [] [.text "N2"]) :=
  c8_two_author_notes_merge envC8 {} "u" 1 pageTwoNotes
    (Node.elem "div" ["author-note-portlet"] [] [.text "N1"])
    (Node.elem "div" ["author-note-portlet"] [] [.text "N2"])
    "<div class=\"author-note-portlet\">N1</div><hr/><div class=\"chapter-content\">Body</div><hr/><div class=\"author-note-portlet\">N2</div>"
    5 rfl rfl rfl
